import Mathlib

/-!
Verification of the adaptive summarization pipeline of the meeting-minutes
repository, embedded from `frontend/src-tauri/src/summary/processor.rs`.

Text is modelled as `List Char` (the Rust code collects the input into a
`Vec<char>` of Unicode code points and slices by character index).
-/

namespace MeetingMinutes

/-- Character-list view of a string literal.  The Rust code operates on
character sequences; we model them as `List Char`. -/
def strL (s : String) : List Char := s.data

/-- Embedding of `rough_token_count` (processor.rs, line 9):
`(s.chars().count() as f64 / 4.0).ceil() as usize`.  Division of an exact
`f64` by `4.0` followed by `ceil` agrees with exact natural ceiling division
for every length below `2^52`, so we model it as `⌈length / 4⌉`. -/
def rough_token_count (s : List Char) : Nat := (s.length + 3) / 4

/-- Embedding of the backward whitespace scan inside `chunk_text`
(processor.rs, lines 89-92): starting from `boundary`, decrement while
`boundary > current_pos` and the character at `boundary` is not whitespace.
The argument is the current value of `boundary`; `cur` is `current_pos`.
Indices passed in actual use are always in range, so the `getD` default is
never consulted. -/
def backScan (chars : List Char) (cur : Nat) : Nat → Nat
  | 0 => 0
  | b + 1 =>
    if cur < b + 1 && !(chars.getD (b + 1) ' ').isWhitespace then
      backScan chars cur b
    else b + 1

/-- Embedding of the per-window end-position computation of `chunk_text`
(processor.rs, lines 85-96): the raw end is `min (pos + chunk_size_chars)
total`; if it falls strictly before the end of the text, scan backward for a
whitespace boundary and use it when it lies strictly after `pos`. -/
def computeEnd (chars : List Char) (cs pos : Nat) : Nat :=
  let total := chars.length
  let rawEnd := min (pos + cs) total
  if rawEnd < total then
    let b := backScan chars pos rawEnd
    if pos < b then b else rawEnd
  else rawEnd

/-- Embedding of the `while current_pos < total_chars` loop of `chunk_text`
(processor.rs, lines 84-106), recording each chunk as its character span
`(current_pos, end_pos)`.  The loop pushes a chunk, breaks when the end
reaches the total length, and otherwise advances by `step`.  The first
argument is recursion fuel: since every iteration advances `pos` by
`step ≥ 1`, at most `chars.length` iterations starting from `pos = 0` ever
run, and once `pos ≥ chars.length` the loop is over regardless of fuel, so
calling with fuel `chars.length` realises the loop exactly. -/
def chunkSpansAux (chars : List Char) (cs step : Nat) :
    Nat → Nat → List (Nat × Nat)
  | 0, _ => []
  | fuel + 1, pos =>
    if pos < chars.length then
      let e := computeEnd chars cs pos
      if e = chars.length then [(pos, e)]
      else (pos, e) :: chunkSpansAux chars cs step fuel (pos + step)
    else []

/-- Character spans of the chunks produced by `chunk_text` (processor.rs,
lines 57-110): the early returns for empty text / zero chunk size and for
text no longer than the chunk budget, then the sliding-window loop with
`step = max (chunk_size_chars - overlap_chars) 1` (Rust `saturating_sub`
followed by `max(1)`, which natural subtraction models exactly). -/
def chunkSpans (text : List Char) (chunk_size_tokens overlap_tokens : Nat) :
    List (Nat × Nat) :=
  if text.isEmpty || chunk_size_tokens == 0 then []
  else
    let chunk_size_chars := chunk_size_tokens * 4
    let overlap_chars := overlap_tokens * 4
    let total_chars := text.length
    if total_chars ≤ chunk_size_chars then [(0, total_chars)]
    else
      let step := max (chunk_size_chars - overlap_chars) 1
      chunkSpansAux text chunk_size_chars step total_chars 0

/-- Embedding of `chunk_text` (processor.rs, lines 57-110): each span is
realised as the corresponding character slice.  The single-chunk early
return yields the whole text, which is exactly the slice of `(0, total)`. -/
def chunk_text (text : List Char) (chunk_size_tokens overlap_tokens : Nat) :
    List (List Char) :=
  (chunkSpans text chunk_size_tokens overlap_tokens).map
    (fun s => (text.drop s.1).take (s.2 - s.1))

example : chunk_text (strL "ab cdefghijkl") 2 0 = [strL "ab", strL "hijkl"] := by
  decide

example : chunkSpans (strL "aaaaa") 1 1 = [(0, 4), (1, 5)] := by decide

/-- Length of the opening tag matched at the head of `s` by the regex
alternative `<think(?:ing)?>` of `clean_llm_markdown_output` (processor.rs,
line 164).  The greedy optional group tries `<thinking>` first; the two
alternatives can never match at the same position (they need `i` vs `>` at
index 6), so the choice is deterministic and no backtracking arises. -/
def openTagLen (s : List Char) : Option Nat :=
  if (strL "<thinking>").isPrefixOf s then some 10
  else if (strL "<think>").isPrefixOf s then some 7
  else none

/-- Length of the closing tag matched at the head of `s` by
`</think(?:ing)?>`; deterministic for the same reason as `openTagLen`. -/
def closeTagLen (s : List Char) : Option Nat :=
  if (strL "</thinking>").isPrefixOf s then some 11
  else if (strL "</think>").isPrefixOf s then some 8
  else none

/-- Lazy `.*?` scan: offset of the first position in `s` where a closing tag
matches, together with that tag's length. -/
def findClose : List Char → Option (Nat × Nat)
  | [] => none
  | c :: rest =>
    match closeTagLen (c :: rest) with
    | some l => some (0, l)
    | none => (findClose rest).map (fun p => (p.1 + 1, p.2))

/-- Embedding of `re.replace_all(markdown, "")` for the regex
`(?s)<think(?:ing)?>.*?</think(?:ing)?>` (processor.rs, lines 164-165):
scan left to right; at each position, if an opening tag matches and a
closing tag occurs somewhere after it, delete through the earliest closing
tag (leftmost-first, lazy `.*?`) and continue after it, otherwise keep the
character.  The first argument is recursion fuel: every recursive call
strictly shortens the list, so fuel `s.length` realises the scan exactly
(at fuel 0 the list is already empty). -/
def removeThinkAux : Nat → List Char → List Char
  | 0, s => s
  | fuel + 1, s =>
    match s with
    | [] => []
    | c :: rest =>
      match openTagLen (c :: rest) with
      | some l =>
        match findClose ((c :: rest).drop l) with
        | some p => removeThinkAux fuel ((c :: rest).drop (l + p.1 + p.2))
        | none => c :: removeThinkAux fuel rest
      | none => c :: removeThinkAux fuel rest

/-- Thinking-block removal step of `clean_llm_markdown_output`. -/
def removeThink (s : List Char) : List Char := removeThinkAux s.length s

/-- Embedding of Rust `str::trim` on the character-list model: drop leading
and trailing whitespace. -/
def trimList (s : List Char) : List Char :=
  ((s.dropWhile Char.isWhitespace).reverse.dropWhile Char.isWhitespace).reverse

/-- Embedding of `clean_llm_markdown_output` (processor.rs, lines 162-183):
remove `<think>`/`<thinking>` blocks, trim, then strip a wrapping code fence
(```markdown-newline or bare ```-newline opener, bare ``` closer) and trim
the inner content; otherwise return the trimmed text.  The fence prefixes
and suffix are ASCII, so byte indices in the source coincide with character
indices here. -/
def clean_llm_markdown_output (markdown : List Char) : List Char :=
  let without_thinking := removeThink markdown
  let trimmed := trimList without_thinking
  if (strL "```markdown\n").isPrefixOf trimmed &&
      (strL "```").isSuffixOf trimmed then
    trimList ((trimmed.drop 12).take (trimmed.length - 3 - 12))
  else if (strL "```\n").isPrefixOf trimmed &&
      (strL "```").isSuffixOf trimmed then
    trimList ((trimmed.drop 4).take (trimmed.length - 3 - 4))
  else trimmed

example :
    clean_llm_markdown_output
      (strL "<thinking>reasoning</thinking>\n\n```markdown\nHello\n```") =
    strL "Hello" := by decide

example :
    clean_llm_markdown_output
      (strL "```markdown\n```markdown\nhi\n```\n```") =
    strL "```markdown\nhi\n```" := by decide

example :
    clean_llm_markdown_output (strL "```markdown\nhi\n```") = strL "hi" := by
  decide

example :
    clean_llm_markdown_output (strL "<th<think>x</think>ink>y</think>") =
    strL "<think>y</think>" := by decide

/-- Replace every non-overlapping occurrence of `pat` in `s` by `rep`,
scanning left to right — the behaviour of Rust `str::replace`, used with
pattern `"{}"` on the prompt templates (processor.rs, lines 336 and 385).
The first argument is recursion fuel; every recursive call strictly
shortens the list (the pattern `"{}"` is non-empty), so fuel `s.length`
realises the scan exactly. -/
def replaceAllAux (pat rep : List Char) : Nat → List Char → List Char
  | 0, s => s
  | fuel + 1, s =>
    match s with
    | [] => []
    | c :: rest =>
      if pat ≠ [] ∧ pat.isPrefixOf (c :: rest) then
        rep ++ replaceAllAux pat rep fuel ((c :: rest).drop pat.length)
      else c :: replaceAllAux pat rep fuel rest

/-- Rust `str::replace(pat, rep)` on the character-list model. -/
def replaceAll (s pat rep : List Char) : List Char :=
  replaceAllAux pat rep s.length s

/-- Rust `str::replacen(pat, rep, 1)` (processor.rs, lines 415-417):
replace only the leftmost occurrence of `pat`. -/
def replaceFirst : List Char → List Char → List Char → List Char
  | [], _, _ => []
  | c :: rest, pat, rep =>
    if pat ≠ [] ∧ pat.isPrefixOf (c :: rest) then
      rep ++ (c :: rest).drop pat.length
    else c :: replaceFirst rest pat rep

/-- Provider enumeration.  Modelled from the spec: the defining module
`summary/llm_client.rs` is not under `src/`; the spec (§2, §4.3) and the
uses in `chat/service.rs` name exactly these five providers, and only the
Ollama / non-Ollama distinction matters to the pipeline. -/
inductive LLMProvider
  | OpenAI
  | Claude
  | Groq
  | Ollama
  | OpenRouter
deriving DecidableEq, Repr

/-- Resolved template.  Modelled from the spec (§6): the template
collaborator (`summary/templates.rs`, not under `src/`) resolves an
identifier to a markdown skeleton (`to_markdown_structure`) and section
instructions (`to_section_instructions`), or fails. -/
structure Template where
  markdown_structure : List Char
  section_instructions : List Char

/-- External collaborators of `generate_meeting_summary`, passed as oracles.
`llm` models `generate_summary` of `summary/llm_client.rs` (not under
`src/`): one network call per invocation, indexed by the position of the
call in the sequential call order of the pipeline (calls are awaited one
after another), taking the system and user prompts and returning either the
response text or a transport error.  `getTemplate` models
`templates::get_template`; the prompt fields model the strings returned by
the `prompts::get_*` lookups for the fixed language of one invocation. -/
structure Collaborators where
  llm : Nat → List Char → List Char → Except (List Char) (List Char)
  getTemplate : List Char → Except (List Char) Template
  chunkSystemPrompt : List Char
  chunkUserTemplate : List Char
  combineSystemPrompt : List Char
  combineUserTemplate : List Char
  finalSystemTemplate : List Char

/-- Strategy decision of `generate_meeting_summary` (processor.rs, line
309): single-pass iff `provider != &LLMProvider::Ollama || total_tokens <
token_threshold`. -/
def usesSinglePass (provider : LLMProvider) (text : List Char)
    (token_threshold : Nat) : Bool :=
  provider != LLMProvider.Ollama ||
    decide (rough_token_count text < token_threshold)

/-- Per-chunk user prompt (processor.rs, line 336):
`user_prompt_template_chunk.replace("{}", chunk)`. -/
def chunkUserPrompt (co : Collaborators) (chunk : List Char) : List Char :=
  replaceAll co.chunkUserTemplate (strL "{}") chunk

/-- Chunk-summarization loop of `generate_meeting_summary` (processor.rs,
lines 334-357): one LLM call per chunk, sequentially and in order (chunk
`i` is the `i`-th call overall of the multi-level run); a failed call is
logged and skipped, a successful call's summary is collected in order. -/
def chunkStage (co : Collaborators) (chunks : List (List Char)) :
    List (List Char) :=
  chunks.enum.filterMap
    (fun p => (co.llm p.1 co.chunkSystemPrompt (chunkUserPrompt co p.2)).toOption)

/-- Fatal-error message for a multi-level run with zero successful chunks
(processor.rs, lines 359-364). -/
def noChunksError : List Char :=
  strL "Multi-level summarization failed: No chunks were processed successfully."

/-- Summary-combination step of `generate_meeting_summary` (processor.rs,
lines 373-398): with more than one surviving summary, join them with
`"\n---\n"`, substitute into the combine user-prompt template and issue one
LLM call (the `callIdx`-th call of the run) whose failure propagates;
with a single survivor, return it unchanged — no LLM call occurs (the
result does not consult `co.llm`). -/
def combineStage (co : Collaborators) (callIdx : Nat)
    (summaries : List (List Char)) : Except (List Char) (List Char) :=
  if 1 < summaries.length then
    co.llm callIdx co.combineSystemPrompt
      (replaceAll co.combineUserTemplate (strL "{}")
        (List.intercalate (strL "\n---\n") summaries))
  else Except.ok (summaries.headD [])

/-- Final stage of `generate_meeting_summary` (processor.rs, lines
401-449): resolve the template (failure fatal, with the identifier in the
message), build the final system prompt by two single substitutions
(`finalSystemPrompt`), embed the content in the `<transcript_chunks>` tag
with the optional user context (`finalUserPrompt`), issue the final LLM
call (the `callIdx`-th call of the run, via `finishStage`) and sanitize its
output. -/
def finalSystemPrompt (co : Collaborators) (template : Template) : List Char :=
  replaceFirst
    (replaceFirst co.finalSystemTemplate (strL "{}")
      template.section_instructions)
    (strL "{}") template.markdown_structure

/-- Final user prompt (processor.rs, lines 419-432): the content inside the
`<transcript_chunks>` tag, with the optional user context appended inside
its own tag when non-empty. -/
def finalUserPrompt (content custom_prompt : List Char) : List Char :=
  let base_user :=
    strL "\n<transcript_chunks>\n" ++ content ++ strL "\n</transcript_chunks>\n"
  if custom_prompt.isEmpty then base_user
  else
    base_user ++ strL "\n\nUser Provided Context:\n\n<user_context>\n" ++
      custom_prompt ++ strL "\n</user_context>"

def finishStage (co : Collaborators) (content : List Char) (cnt : Int)
    (custom_prompt template_id : List Char) (callIdx : Nat) :
    Except (List Char) (List Char × Int) :=
  match co.getTemplate template_id with
  | Except.error e =>
    Except.error
      (strL "Failed to load template '" ++ template_id ++ strL "': " ++ e)
  | Except.ok template =>
    match co.llm callIdx (finalSystemPrompt co template)
        (finalUserPrompt content custom_prompt) with
    | Except.error e => Except.error e
    | Except.ok raw_markdown =>
      Except.ok (clean_llm_markdown_output raw_markdown, cnt)

/-- Embedding of `generate_meeting_summary` (processor.rs, lines 269-450),
with the external collaborators as oracles.  On the single-pass branch the
content is the raw text and the chunk count is 1; on the multi-level branch
the text is chunked with chunk size `token_threshold - 300` tokens and
overlap 100 tokens, the chunks are summarized tolerating per-chunk failure,
an empty survivor list is fatal, the survivors are combined, and both
branches finish with the template-driven final call.  The source subtracts
`300` from `token_threshold` as `usize`; natural subtraction is used here,
and the underflow behaviour of the original operation is captured
separately by `checkedSub`. -/
def generate_meeting_summary (co : Collaborators) (provider : LLMProvider)
    (text custom_prompt template_id : List Char) (token_threshold : Nat) :
    Except (List Char) (List Char × Int) :=
  if usesSinglePass provider text token_threshold then
    finishStage co text 1 custom_prompt template_id 0
  else
    let chunks := chunk_text text (token_threshold - 300) 100
    let chunk_summaries := chunkStage co chunks
    if chunk_summaries.isEmpty then Except.error noChunksError
    else
      match combineStage co chunks.length chunk_summaries with
      | Except.error e => Except.error e
      | Except.ok content_to_summarize =>
        finishStage co content_to_summarize (chunk_summaries.length : Int)
          custom_prompt template_id
          (chunks.length + if 1 < chunk_summaries.length then 1 else 0)

/-- Model of overflow-checked `usize` subtraction: Rust `a - b` on `usize`
is well-defined exactly when `b ≤ a` (it panics on underflow in debug
builds and wraps in release builds); `none` marks the underflow case.
Captures the subtraction `token_threshold - 300` at processor.rs, line
323. -/
def checkedSub (a b : Nat) : Option Nat :=
  if b ≤ a then some (a - b) else none

/-! Helper lemmas about the chunking loop. -/

theorem backScan_le (chars : List Char) (cur : Nat) :
    ∀ b, backScan chars cur b ≤ b := by
  intro b
  induction b with
  | zero => simp [backScan]
  | succ n ih =>
    simp only [backScan]
    split
    · exact Nat.le_trans ih (Nat.le_succ n)
    · exact Nat.le_refl _

theorem backScan_ws (chars : List Char) (cur : Nat) :
    ∀ b, cur < backScan chars cur b →
      (chars.getD (backScan chars cur b) ' ').isWhitespace = true := by
  intro b
  induction b with
  | zero => intro h; simp [backScan] at h
  | succ n ih =>
    simp only [backScan]
    split
    · exact ih
    · intro hlt
      rename_i hcond
      simp only [Bool.and_eq_true, decide_eq_true_eq, Bool.not_eq_true',
        not_and, Bool.not_eq_false] at hcond
      exact hcond hlt

theorem backScan_none_between (chars : List Char) (cur : Nat) :
    ∀ b j, backScan chars cur b < j → j ≤ b →
      (chars.getD j ' ').isWhitespace = false := by
  intro b
  induction b with
  | zero => intro j h1 h2; simp [backScan] at h1; omega
  | succ n ih =>
    intro j h1 h2
    simp only [backScan] at h1
    by_cases hcond :
        (decide (cur < n + 1) && !(chars.getD (n + 1) ' ').isWhitespace) = true
    · rw [if_pos hcond] at h1
      rcases Nat.lt_or_ge n j with hj | hj
      · have : j = n + 1 := by omega
        subst this
        simp only [Bool.and_eq_true, Bool.not_eq_true'] at hcond
        exact hcond.2
      · exact ih j h1 hj
    · rw [if_neg hcond] at h1
      omega

theorem computeEnd_le_total (chars : List Char) (cs pos : Nat) :
    computeEnd chars cs pos ≤ chars.length := by
  simp only [computeEnd]
  split
  · split
    · rename_i hraw hpos
      exact Nat.le_trans (backScan_le chars pos _) (Nat.le_of_lt hraw)
    · exact Nat.le_of_lt (by assumption)
  · exact Nat.min_le_right _ _

theorem computeEnd_le_budget (chars : List Char) (cs pos : Nat) :
    computeEnd chars cs pos ≤ pos + cs := by
  simp only [computeEnd]
  split
  · split
    · rename_i hraw hpos
      exact Nat.le_trans (backScan_le chars pos _)
        (Nat.le_trans (Nat.min_le_left _ _) (Nat.le_refl _))
    · exact Nat.min_le_left _ _
  · exact Nat.min_le_left _ _

theorem computeEnd_lt_total (chars : List Char) (cs pos : Nat)
    (h : computeEnd chars cs pos ≠ chars.length) :
    pos + cs < chars.length ∧
      min (pos + cs) chars.length = pos + cs := by
  have hle := computeEnd_le_total chars cs pos
  simp only [computeEnd] at h
  by_cases hraw : min (pos + cs) chars.length < chars.length
  · have : pos + cs < chars.length := by omega
    exact ⟨this, by omega⟩
  · rw [if_neg hraw] at h
    omega

theorem chunkSpansAux_nil (chars : List Char) (cs step : Nat) (fuel pos : Nat)
    (h : chars.length ≤ pos) :
    chunkSpansAux chars cs step fuel pos = [] := by
  cases fuel with
  | zero => rfl
  | succ n => simp [chunkSpansAux, Nat.not_lt_of_le h]

theorem chunkSpansAux_cons (chars : List Char) (cs step : Nat) (fuel pos : Nat)
    (hpos : pos < chars.length) (hfuel : chars.length ≤ fuel + pos) :
    ∃ tail, chunkSpansAux chars cs step fuel pos =
      (pos, computeEnd chars cs pos) :: tail := by
  cases fuel with
  | zero => omega
  | succ n =>
    rw [chunkSpansAux]
    rw [if_pos hpos]
    by_cases he : computeEnd chars cs pos = chars.length
    · exact ⟨[], by rw [if_pos he]⟩
    · exact ⟨_, by rw [if_neg he]⟩

theorem chunkSpansAux_mem (chars : List Char) (cs step : Nat)
    (hstep : 0 < step) :
    ∀ fuel pos, chars.length ≤ fuel + pos →
      ∀ s ∈ chunkSpansAux chars cs step fuel pos,
        s.2 = computeEnd chars cs s.1 ∧ pos ≤ s.1 ∧ s.1 < chars.length := by
  intro fuel
  induction fuel with
  | zero =>
    intro pos hf s hs
    rw [chunkSpansAux_nil chars cs step 0 pos (by omega)] at hs
    cases hs
  | succ n ih =>
    intro pos hf s hs
    rw [chunkSpansAux] at hs
    by_cases hpos : pos < chars.length
    · rw [if_pos hpos] at hs
      by_cases he : computeEnd chars cs pos = chars.length
      · simp only [he, if_pos] at hs
        rw [List.mem_singleton] at hs
        subst hs
        exact ⟨he.symm ▸ rfl, Nat.le_refl _, hpos⟩
      · rw [if_neg he] at hs
        rcases List.mem_cons.mp hs with h | h
        · subst h
          exact ⟨rfl, Nat.le_refl _, hpos⟩
        · have := ih (pos + step) (by omega) s h
          exact ⟨this.1, by omega, this.2.2⟩
    · rw [if_neg hpos] at hs
      cases hs

theorem chunkSpansAux_chain (chars : List Char) (cs step : Nat)
    (hstep : 0 < step) :
    ∀ fuel pos, chars.length ≤ fuel + pos →
      List.Chain' (fun a b : Nat × Nat => b.1 = a.1 + step ∧ a.2 ≠ chars.length)
        (chunkSpansAux chars cs step fuel pos) := by
  intro fuel
  induction fuel with
  | zero =>
    intro pos hf
    rw [chunkSpansAux_nil chars cs step 0 pos (by omega)]
    exact List.chain'_nil
  | succ n ih =>
    intro pos hf
    rw [chunkSpansAux]
    by_cases hpos : pos < chars.length
    · rw [if_pos hpos]
      by_cases he : computeEnd chars cs pos = chars.length
      · simp [he]
      · rw [if_neg he]
        rw [List.chain'_cons']
        refine ⟨?_, ih (pos + step) (by omega)⟩
        intro y hy
        by_cases hnext : pos + step < chars.length
        · obtain ⟨tail, htail⟩ :=
            chunkSpansAux_cons chars cs step n (pos + step) hnext (by omega)
          rw [htail] at hy
          simp only [List.head?_cons, Option.mem_def, Option.some.injEq] at hy
          subst hy
          exact ⟨rfl, he⟩
        · rw [chunkSpansAux_nil chars cs step n (pos + step) (by omega)] at hy
          cases hy
    · rw [if_neg hpos]
      exact List.chain'_nil

theorem chunkSpansAux_cover (chars : List Char) (cs step : Nat)
    (hstep : 0 < step) (hsc : step ≤ cs) :
    ∀ fuel pos, chars.length ≤ fuel + pos → pos < chars.length →
      List.Chain' (fun a b : Nat × Nat => b.1 ≤ a.2)
        (chunkSpansAux chars cs step fuel pos) →
      ∀ i, pos ≤ i → i < chars.length →
        ∃ s ∈ chunkSpansAux chars cs step fuel pos, s.1 ≤ i ∧ i < s.2 := by
  intro fuel
  induction fuel with
  | zero => intro pos hf hpos; omega
  | succ n ih =>
    intro pos hf hpos hchain i hpi hit
    rw [chunkSpansAux] at hchain ⊢
    rw [if_pos hpos] at hchain ⊢
    by_cases he : computeEnd chars cs pos = chars.length
    · simp only [he, if_pos]
      exact ⟨(pos, chars.length), List.mem_singleton.mpr rfl, hpi, hit⟩
    · rw [if_neg he] at hchain ⊢
      by_cases hie : i < computeEnd chars cs pos
      · exact ⟨(pos, computeEnd chars cs pos), List.mem_cons_self _ _, hpi, hie⟩
      · have hnext : pos + step < chars.length := by
          have h2 := (computeEnd_lt_total chars cs pos he).1
          omega
        obtain ⟨tail, htail⟩ :=
          chunkSpansAux_cons chars cs step n (pos + step) hnext (by omega)
        rw [List.chain'_cons'] at hchain
        have hple : pos + step ≤ computeEnd chars cs pos := by
          have := hchain.1 (pos + step, computeEnd chars cs (pos + step))
            (by rw [htail]; rfl)
          exact this
        obtain ⟨s, hs, hsi⟩ := ih (pos + step) (by omega) hnext hchain.2 i
          (by omega) hit
        exact ⟨s, List.mem_cons_of_mem _ hs, hsi⟩

theorem chunkSpans_end_le (text : List Char) (cst ov : Nat) :
    ∀ s ∈ chunkSpans text cst ov, s.2 ≤ s.1 + cst * 4 := by
  intro s hs
  rw [chunkSpans] at hs
  by_cases h0 : text.isEmpty || cst == 0
  · rw [if_pos h0] at hs; cases hs
  · rw [if_neg h0] at hs
    simp only at hs
    by_cases h1 : text.length ≤ cst * 4
    · rw [if_pos h1] at hs
      rw [List.mem_singleton] at hs
      subst hs
      simpa using h1
    · rw [if_neg h1] at hs
      have := chunkSpansAux_mem text (cst * 4) (max (cst * 4 - ov * 4) 1)
        (Nat.lt_of_lt_of_le Nat.one_pos (Nat.le_max_right _ 1))
        text.length 0 (by omega) s hs
      rw [this.1]
      exact computeEnd_le_budget text (cst * 4) s.1

theorem chunkSpans_mem_lt (text : List Char) (cst ov : Nat) :
    ∀ s ∈ chunkSpans text cst ov,
      s.2 = computeEnd text (cst * 4) s.1 ∨
        (s = (0, text.length) ∧ text.length ≤ cst * 4) := by
  intro s hs
  rw [chunkSpans] at hs
  by_cases h0 : text.isEmpty || cst == 0
  · rw [if_pos h0] at hs; cases hs
  · rw [if_neg h0] at hs
    simp only at hs
    by_cases h1 : text.length ≤ cst * 4
    · rw [if_pos h1] at hs
      rw [List.mem_singleton] at hs
      exact Or.inr ⟨hs, h1⟩
    · rw [if_neg h1] at hs
      exact Or.inl (chunkSpansAux_mem text (cst * 4) (max (cst * 4 - ov * 4) 1)
        (Nat.lt_of_lt_of_le Nat.one_pos (Nat.le_max_right _ 1))
        text.length 0 (by omega) s hs).1

/-- C7: for every non-empty text whose character count is at most
`chunk_size_tokens * 4` (with `chunk_size_tokens > 0`), `chunk_text`
returns exactly one chunk equal to the whole text. -/
theorem claim_C7 (text : List Char) (cst ov : Nat) (hne : text ≠ [])
    (hc : 0 < cst) (hlen : text.length ≤ cst * 4) :
    chunk_text text cst ov = [text] := by
  have h0 : (text.isEmpty || cst == 0) = false := by
    cases text with
    | nil => exact absurd rfl hne
    | cons a l =>
      simp only [List.isEmpty_cons, Bool.false_or, beq_eq_false_iff_ne]
      omega
  rw [chunk_text, chunkSpans, h0]
  simp only [Bool.false_eq_true, if_false, if_pos hlen]
  simp [List.take_of_length_le]

/-- C7 witness: a 5-character text with a 2-token (8-character) budget is
returned whole as the single chunk. -/
theorem claim_C7_witness :
    (strL "hi ho" ≠ [] ∧ 0 < 2 ∧ (strL "hi ho").length ≤ 2 * 4) ∧
      chunk_text (strL "hi ho") 2 0 = [strL "hi ho"] :=
  ⟨⟨by decide, by decide, by decide⟩,
    claim_C7 (strL "hi ho") 2 0 (by decide) (by decide) (by decide)⟩

/-- C8: chunking the empty text, or chunking any text with
`chunk_size_tokens = 0`, returns the empty sequence (no error). -/
theorem claim_C8 :
    (∀ n k : Nat, chunk_text [] n k = []) ∧
      ∀ (t : List Char) (k : Nat), chunk_text t 0 k = [] := by
  constructor
  · intro n k
    simp [chunk_text, chunkSpans]
  · intro t k
    simp [chunk_text, chunkSpans]

/-- C10: every chunk returned by `chunk_text` has character length at most
`chunk_size_tokens * 4`; the whitespace fallback only ever shrinks a
window. -/
theorem claim_C10 (text : List Char) (cst ov : Nat) (hc : 0 < cst) :
    ∀ c ∈ chunk_text text cst ov, c.length ≤ cst * 4 := by
  intro c hmem
  rw [chunk_text] at hmem
  obtain ⟨s, hs, rfl⟩ := List.mem_map.mp hmem
  have hle := chunkSpans_end_le text cst ov s hs
  simp only [List.length_take, List.length_drop]
  omega

/-- C10 witness: in a concrete two-chunk split both chunks respect the
8-character budget. -/
theorem claim_C10_witness :
    (0 < 2 ∧ strL "hijkl" ∈ chunk_text (strL "ab cdefghijkl") 2 0) ∧
      (strL "hijkl").length ≤ 2 * 4 :=
  ⟨⟨by decide, by decide⟩,
    claim_C10 (strL "ab cdefghijkl") 2 0 (by decide) (strL "hijkl") (by decide)⟩

/-- C1 counterexample: with text `"ab cdefghijkl"`, chunk size 2 tokens and
overlap 0, the produced chunks are `"ab"` and `"hijkl"`; the character `'c'`
occurs in the input but in neither chunk, so not every character of the
input appears in a chunk.  (The first window snaps back to the whitespace
at index 2, yet the position still advances by the full step of 8, skipping
indices 2-7.) -/
theorem claim_C1_counterexample :
    chunk_text (strL "ab cdefghijkl") 2 0 = [strL "ab", strL "hijkl"] ∧
      'c' ∈ strL "ab cdefghijkl" ∧ 'c' ∉ strL "ab" ∧ 'c' ∉ strL "hijkl" := by
  decide

/-- C1 (amended): every character of a non-empty input (with
`chunk_size_tokens > 0`) is covered by some chunk's span, provided the
whitespace fallback never snaps a chunk's end back before the next window's
start — that is, whenever each successor span starts no later than its
predecessor's end. -/
theorem claim_C1 (text : List Char) (cst ov : Nat) (hne : text ≠ [])
    (hc : 0 < cst)
    (hchain : List.Chain' (fun a b : Nat × Nat => b.1 ≤ a.2)
      (chunkSpans text cst ov))
    (i : Nat) (hi : i < text.length) :
    ∃ s ∈ chunkSpans text cst ov, s.1 ≤ i ∧ i < s.2 := by
  have h0 : (text.isEmpty || cst == 0) = false := by
    cases text with
    | nil => exact absurd rfl hne
    | cons a l =>
      simp only [List.isEmpty_cons, Bool.false_or, beq_eq_false_iff_ne]
      omega
  rw [chunkSpans, h0] at hchain ⊢
  simp only [Bool.false_eq_true, if_false] at hchain ⊢
  by_cases h1 : text.length ≤ cst * 4
  · rw [if_pos h1] at hchain ⊢
    exact ⟨(0, text.length), List.mem_singleton.mpr rfl, by omega, hi⟩
  · rw [if_neg h1] at hchain ⊢
    exact chunkSpansAux_cover text (cst * 4) (max (cst * 4 - ov * 4) 1)
      (Nat.lt_of_lt_of_le Nat.one_pos (Nat.le_max_right _ 1))
      (by omega) text.length 0 (by omega) (by omega) hchain i (by omega) hi

/-- C1 witness: a whitespace-free 10-character text split with chunk size 2
tokens and overlap 1 token yields spans `(0,8)` and `(4,10)`; the snap-back
condition holds and index 5 is covered. -/
theorem claim_C1_witness :
    (strL "aaaaaaaaab" ≠ [] ∧ 0 < 2 ∧
        List.Chain' (fun a b : Nat × Nat => b.1 ≤ a.2)
          (chunkSpans (strL "aaaaaaaaab") 2 1) ∧
        5 < (strL "aaaaaaaaab").length) ∧
      ∃ s ∈ chunkSpans (strL "aaaaaaaaab") 2 1, s.1 ≤ 5 ∧ 5 < s.2 := by
  have he : chunkSpans (strL "aaaaaaaaab") 2 1 = [(0, 8), (4, 10)] := by decide
  have hch : List.Chain' (fun a b : Nat × Nat => b.1 ≤ a.2)
      (chunkSpans (strL "aaaaaaaaab") 2 1) := by
    rw [he]
    exact List.chain'_cons.mpr ⟨by omega, List.chain'_singleton _⟩
  exact ⟨⟨by decide, by decide, hch, by decide⟩,
    claim_C1 (strL "aaaaaaaaab") 2 1 (by decide) (by decide) hch 5 (by decide)⟩

/-- Number of characters shared by two chunk spans (the size of the
intersection of the half-open intervals, zero when they are disjoint). -/
def spanOverlap (a b : Nat × Nat) : Nat := min a.2 b.2 - max a.1 b.1

theorem chunkSpans_eq_aux_of_two (text : List Char) (cst ov : Nat)
    (h : 2 ≤ (chunkSpans text cst ov).length) :
    chunkSpans text cst ov =
        chunkSpansAux text (cst * 4) (max (cst * 4 - ov * 4) 1) text.length 0 ∧
      cst * 4 < text.length ∧ 0 < cst := by
  rw [chunkSpans] at h ⊢
  by_cases h0 : (text.isEmpty || cst == 0) = true
  · rw [if_pos h0] at h; simp at h
  · rw [if_neg h0] at h ⊢
    simp only at h ⊢
    by_cases hl : text.length ≤ cst * 4
    · rw [if_pos hl] at h; simp at h
    · rw [if_neg hl] at h ⊢
      refine ⟨rfl, by omega, ?_⟩
      simp only [Bool.or_eq_true, beq_iff_eq, not_or] at h0
      omega

theorem chain'_getD {α : Type} {R : α → α → Prop} {l : List α}
    (h : List.Chain' R l) (i : Nat) (hi : i + 1 < l.length) (d : α) :
    R (l.getD i d) (l.getD (i + 1) d) := by
  rw [List.getD_eq_getElem l d (by omega), List.getD_eq_getElem l d hi]
  exact List.chain'_iff_get.mp h i (by omega)

theorem getD_mem_of_lt {α : Type} (l : List α) (i : Nat) (hi : i < l.length)
    (d : α) : l.getD i d ∈ l := by
  rw [List.getD_eq_getElem l d hi]
  exact List.getElem_mem hi

theorem overlap_le (chars : List Char) (cs ovc p1 e2 : Nat) :
    min (computeEnd chars cs p1) e2 - max p1 (p1 + max (cs - ovc) 1) ≤ ovc := by
  have h := computeEnd_le_budget chars cs p1
  omega

theorem overlap_exact (chars : List Char) (cs ovc p1 : Nat)
    (hov : ovc < cs)
    (hne : computeEnd chars cs p1 ≠ chars.length)
    (hsnap : computeEnd chars cs p1 = min (p1 + cs) chars.length) :
    min (computeEnd chars cs p1) (computeEnd chars cs (p1 + max (cs - ovc) 1)) -
      max p1 (p1 + max (cs - ovc) 1) = ovc := by
  have h1 := computeEnd_lt_total chars cs p1 hne
  have hstep : max (cs - ovc) 1 = cs - ovc := by omega
  have he1 : computeEnd chars cs p1 = p1 + cs := by rw [hsnap, h1.2]
  have hge : p1 + cs ≤ computeEnd chars cs (p1 + max (cs - ovc) 1) := by
    set p2 := p1 + max (cs - ovc) 1 with hp2
    have hp2gt : p1 < p2 := by omega
    by_cases hraw2 : min (p2 + cs) chars.length < chars.length
    · have hraw2ge : p1 + cs < min (p2 + cs) chars.length := by omega
      simp only [computeEnd]
      rw [if_pos hraw2]
      by_cases hb : p2 < backScan chars p2 (min (p2 + cs) chars.length)
      · rw [if_pos hb]
        by_contra hlt
        push_neg at hlt
        have hws : (chars.getD (backScan chars p2 (min (p2 + cs) chars.length)) ' ').isWhitespace
            = true := backScan_ws chars p2 _ hb
        have hraw1lt : min (p1 + cs) chars.length < chars.length := by omega
        have hunfold : computeEnd chars cs p1 =
            if p1 < backScan chars p1 (min (p1 + cs) chars.length) then
              backScan chars p1 (min (p1 + cs) chars.length)
            else min (p1 + cs) chars.length := by
          simp only [computeEnd]
          rw [if_pos hraw1lt]
        by_cases hpb : p1 < backScan chars p1 (min (p1 + cs) chars.length)
        · rw [if_pos hpb] at hunfold
          have hb1 : backScan chars p1 (min (p1 + cs) chars.length) = p1 + cs := by
            omega
          have hws1 : (chars.getD (p1 + cs) ' ').isWhitespace = true := by
            have := backScan_ws chars p1 (min (p1 + cs) chars.length) hpb
            rwa [hb1] at this
          have hfalse := backScan_none_between chars p2
            (min (p2 + cs) chars.length) (p1 + cs) (by omega) (by omega)
          rw [hws1] at hfalse
          cases hfalse
        · rw [if_neg hpb] at hunfold
          push_neg at hpb
          have hfalse := backScan_none_between chars p1
            (min (p1 + cs) chars.length)
            (backScan chars p2 (min (p2 + cs) chars.length))
            (by omega) (by omega)
          rw [hws] at hfalse
          cases hfalse
      · rw [if_neg hb]
        omega
    · simp only [computeEnd]
      rw [if_neg hraw2]
      omega
  omega

/-- C5 counterexample: with `chunk_size_tokens = 1` and `overlap_tokens = 1`
on the whitespace-free text `"aaaaa"`, the spans are `(0,4)` and `(1,5)`;
no whitespace fallback triggers (both ends equal their raw window ends),
yet the consecutive overlap is 3 characters, not `overlap_tokens * 4 = 4`
(the degenerate step `max(4-4,1) = 1` breaks the exact-overlap statement
when `overlap_tokens ≥ chunk_size_tokens`). -/
theorem claim_C5_counterexample :
    chunkSpans (strL "aaaaa") 1 1 = [(0, 4), (1, 5)] ∧
      (4 : Nat) = min (0 + 1 * 4) (strL "aaaaa").length ∧
      spanOverlap (0, 4) (1, 5) = 3 ∧ (3 : Nat) ≠ 1 * 4 := by
  decide

/-- C5 (amended): consecutive chunk spans overlap by at most
`overlap_tokens * 4` characters always; they overlap by exactly
`overlap_tokens * 4` characters when additionally
`overlap_tokens < chunk_size_tokens` and the whitespace fallback was not
triggered for the earlier chunk (its end equals its raw window end). -/
theorem claim_C5 (text : List Char) (cst ov i : Nat)
    (h2 : i + 1 < (chunkSpans text cst ov).length) :
    spanOverlap ((chunkSpans text cst ov).getD i (0, 0))
        ((chunkSpans text cst ov).getD (i + 1) (0, 0)) ≤ ov * 4 ∧
      (ov < cst →
        ((chunkSpans text cst ov).getD i (0, 0)).2 =
          min (((chunkSpans text cst ov).getD i (0, 0)).1 + cst * 4)
            text.length →
        spanOverlap ((chunkSpans text cst ov).getD i (0, 0))
          ((chunkSpans text cst ov).getD (i + 1) (0, 0)) = ov * 4) := by
  obtain ⟨heq, hlen, hcst⟩ := chunkSpans_eq_aux_of_two text cst ov (by omega)
  have hstep : (0 : Nat) < max (cst * 4 - ov * 4) 1 :=
    Nat.lt_of_lt_of_le Nat.one_pos (Nat.le_max_right _ 1)
  have hchain := chunkSpansAux_chain text (cst * 4) (max (cst * 4 - ov * 4) 1)
    hstep text.length 0 (by omega)
  rw [← heq] at hchain
  have hadj := chain'_getD hchain i h2 (0, 0)
  obtain ⟨hb1, hne⟩ := hadj
  have hmema := chunkSpansAux_mem text (cst * 4) (max (cst * 4 - ov * 4) 1)
    hstep text.length 0 (by omega) ((chunkSpans text cst ov).getD i (0, 0))
    (by rw [← heq]; exact getD_mem_of_lt _ i (by omega) _)
  have hmemb := chunkSpansAux_mem text (cst * 4) (max (cst * 4 - ov * 4) 1)
    hstep text.length 0 (by omega)
    ((chunkSpans text cst ov).getD (i + 1) (0, 0))
    (by rw [← heq]; exact getD_mem_of_lt _ (i + 1) h2 _)
  constructor
  · rw [spanOverlap, hmema.1, hb1]
    exact overlap_le text (cst * 4) (ov * 4)
      (((chunkSpans text cst ov).getD i (0, 0)).1) _
  · intro hovlt hsnap
    rw [spanOverlap, hmema.1, hmemb.1, hb1]
    rw [hmema.1] at hne hsnap
    exact overlap_exact text (cst * 4) (ov * 4)
      (((chunkSpans text cst ov).getD i (0, 0)).1) (by omega) hne hsnap

/-- C5 witness: on the whitespace-free text of 10 characters with chunk
size 2 tokens and overlap 1 token, the spans `(0,8)` and `(4,10)` overlap
by exactly `1 * 4 = 4` characters, and the first chunk's end equals its raw
window end. -/
theorem claim_C5_witness :
    (0 + 1 < (chunkSpans (strL "aaaaaaaaab") 2 1).length ∧ 1 < 2 ∧
        ((chunkSpans (strL "aaaaaaaaab") 2 1).getD 0 (0, 0)).2 =
          min (((chunkSpans (strL "aaaaaaaaab") 2 1).getD 0 (0, 0)).1 + 2 * 4)
            (strL "aaaaaaaaab").length) ∧
      spanOverlap ((chunkSpans (strL "aaaaaaaaab") 2 1).getD 0 (0, 0))
        ((chunkSpans (strL "aaaaaaaaab") 2 1).getD 1 (0, 0)) = 1 * 4 :=
  ⟨⟨by decide, by decide, by decide⟩,
    (claim_C5 (strL "aaaaaaaaab") 2 1 0 (by decide)).2 (by decide) (by decide)⟩

/-! Helper lemmas about trimming, for the sanitizer claims. -/

theorem dropWhile_len_le {α : Type} (p : α → Bool) (l : List α) :
    (l.dropWhile p).length ≤ l.length := by
  induction l with
  | nil => exact Nat.le_refl _
  | cons a l ih =>
    by_cases h : p a = true
    · rw [List.dropWhile_cons_of_pos h]
      exact Nat.le_trans ih (Nat.le_succ _)
    · rw [List.dropWhile_cons_of_neg h]

theorem dropWhile_dropWhile {α : Type} (p : α → Bool) (l : List α) :
    (l.dropWhile p).dropWhile p = l.dropWhile p := by
  induction l with
  | nil => rfl
  | cons a l ih =>
    by_cases h : p a = true
    · rw [List.dropWhile_cons_of_pos h]
      exact ih
    · rw [List.dropWhile_cons_of_neg h, List.dropWhile_cons_of_neg h]

theorem left_trimmed_rtrim {α : Type} (p : α → Bool) (l : List α)
    (h : l.dropWhile p = l) :
    ((l.reverse.dropWhile p).reverse).dropWhile p =
      (l.reverse.dropWhile p).reverse := by
  have hsplit : l.reverse.takeWhile p ++ l.reverse.dropWhile p = l.reverse :=
    List.takeWhile_append_dropWhile p l.reverse
  have hl : l = (l.reverse.dropWhile p).reverse ++ (l.reverse.takeWhile p).reverse := by
    have hrv := congrArg List.reverse hsplit
    rw [List.reverse_append, List.reverse_reverse] at hrv
    exact hrv.symm
  cases hrev : (l.reverse.dropWhile p).reverse with
  | nil => rfl
  | cons a t =>
    have hla := hl
    rw [hrev, List.cons_append] at hla
    have hpa : ¬ p a = true := by
      intro hp
      rw [hla, List.dropWhile_cons_of_pos hp] at h
      have hlen := congrArg List.length h
      have hle := dropWhile_len_le p (t ++ (l.reverse.takeWhile p).reverse)
      simp only [List.length_cons] at hlen
      omega
    rw [List.dropWhile_cons_of_neg hpa]

theorem trimList_trimList (s : List Char) :
    trimList (trimList s) = trimList s := by
  have hA : (s.dropWhile Char.isWhitespace).dropWhile Char.isWhitespace =
      s.dropWhile Char.isWhitespace := dropWhile_dropWhile _ s
  have h1 := left_trimmed_rtrim Char.isWhitespace
    (s.dropWhile Char.isWhitespace) hA
  show trimList
      (((s.dropWhile Char.isWhitespace).reverse.dropWhile Char.isWhitespace).reverse) =
    ((s.dropWhile Char.isWhitespace).reverse.dropWhile Char.isWhitespace).reverse
  rw [trimList, h1, List.reverse_reverse, dropWhile_dropWhile]

theorem clean_trimmed (x : List Char) :
    trimList (clean_llm_markdown_output x) = clean_llm_markdown_output x := by
  rw [clean_llm_markdown_output]
  split
  · exact trimList_trimList _
  · split
    · exact trimList_trimList _
    · exact trimList_trimList _

/-- C2 counterexample: `clean_llm_markdown_output` is not idempotent.  On
the nested-fence input ```` ```markdown\n```markdown\nhi\n```\n``` ```` the
first application strips one fence level, leaving a string that is itself
fence-wrapped, and a second application strips it again. -/
theorem claim_C2_counterexample :
    clean_llm_markdown_output (clean_llm_markdown_output
        (strL "```markdown\n```markdown\nhi\n```\n```")) ≠
      clean_llm_markdown_output (strL "```markdown\n```markdown\nhi\n```\n```") := by
  decide

/-- C2 (amended): `clean_llm_markdown_output` is idempotent on every input
whose cleaned form is a fixed point of thinking-block removal and is not
itself wrapped in a recognised code fence; in general a second application
can strip one more fence level (or newly adjacent thinking tags). -/
theorem claim_C2 (x : List Char)
    (h1 : removeThink (clean_llm_markdown_output x) = clean_llm_markdown_output x)
    (h2 : ((strL "```markdown\n").isPrefixOf (clean_llm_markdown_output x) &&
        (strL "```").isSuffixOf (clean_llm_markdown_output x)) = false)
    (h3 : ((strL "```\n").isPrefixOf (clean_llm_markdown_output x) &&
        (strL "```").isSuffixOf (clean_llm_markdown_output x)) = false) :
    clean_llm_markdown_output (clean_llm_markdown_output x) =
      clean_llm_markdown_output x := by
  have ht : trimList (removeThink (clean_llm_markdown_output x)) =
      clean_llm_markdown_output x := by
    rw [h1]
    exact clean_trimmed x
  conv_lhs => rw [clean_llm_markdown_output]
  simp only [ht, h2, h3, Bool.false_eq_true, if_false]

/-- C2 witness: on `"  hello  "` the cleaned output `"hello"` satisfies
both side conditions and cleaning is idempotent there. -/
theorem claim_C2_witness :
    (removeThink (clean_llm_markdown_output (strL "  hello  ")) =
        clean_llm_markdown_output (strL "  hello  ") ∧
      ((strL "```markdown\n").isPrefixOf (clean_llm_markdown_output (strL "  hello  ")) &&
        (strL "```").isSuffixOf (clean_llm_markdown_output (strL "  hello  "))) = false ∧
      ((strL "```\n").isPrefixOf (clean_llm_markdown_output (strL "  hello  ")) &&
        (strL "```").isSuffixOf (clean_llm_markdown_output (strL "  hello  "))) = false) ∧
      clean_llm_markdown_output (clean_llm_markdown_output (strL "  hello  ")) =
        clean_llm_markdown_output (strL "  hello  ") :=
  ⟨⟨by decide, by decide, by decide⟩,
    claim_C2 (strL "  hello  ") (by decide) (by decide) (by decide)⟩

/-- C3: `generate_meeting_summary` takes the single-pass path iff the
provider is not Ollama or the estimated token count is strictly below the
threshold; at `token_threshold - 1` estimated tokens a bounded-context
(Ollama) run is single-pass, at exactly `token_threshold` it is
multi-level; and the branch taken by `generate_meeting_summary` is exactly
the branch selected by this decision. -/
theorem claim_C3 (provider : LLMProvider) (text : List Char)
    (token_threshold : Nat) :
    (usesSinglePass provider text token_threshold = true ↔
        (provider ≠ LLMProvider.Ollama ∨
          rough_token_count text < token_threshold)) ∧
      (provider = LLMProvider.Ollama → 0 < token_threshold →
        rough_token_count text = token_threshold - 1 →
        usesSinglePass provider text token_threshold = true) ∧
      (provider = LLMProvider.Ollama →
        rough_token_count text = token_threshold →
        usesSinglePass provider text token_threshold = false) ∧
      (∀ (co : Collaborators) (custom_prompt template_id : List Char),
        usesSinglePass provider text token_threshold = true →
        generate_meeting_summary co provider text custom_prompt template_id
            token_threshold =
          finishStage co text 1 custom_prompt template_id 0) := by
  refine ⟨?_, ?_, ?_, ?_⟩
  · rw [usesSinglePass]
    simp only [Bool.or_eq_true, bne_iff_ne, decide_eq_true_eq]
  · intro hp ht hest
    rw [usesSinglePass]
    simp only [Bool.or_eq_true, bne_iff_ne, decide_eq_true_eq]
    right
    omega
  · intro hp hest
    rw [usesSinglePass, hp]
    simp only [bne_self_eq_false, Bool.false_or, decide_eq_false_iff_not]
    omega
  · intro co custom_prompt template_id hsp
    rw [generate_meeting_summary, if_pos hsp]

/-- C3 witness: an Ollama run over a 36-character text (9 estimated tokens)
with threshold 10 is single-pass, and over a 40-character text (10 tokens)
it is multi-level; the single-pass equation holds for a trivial
collaborator. -/
theorem claim_C3_witness :
    (LLMProvider.Ollama = LLMProvider.Ollama ∧ 0 < 10 ∧
        rough_token_count (List.replicate 36 'a') = 10 - 1 ∧
        rough_token_count (List.replicate 40 'a') = 10) ∧
      usesSinglePass LLMProvider.Ollama (List.replicate 36 'a') 10 = true ∧
      usesSinglePass LLMProvider.Ollama (List.replicate 40 'a') 10 = false :=
  ⟨⟨rfl, by decide, by decide, by decide⟩,
    (claim_C3 LLMProvider.Ollama (List.replicate 36 'a') 10).2.1 rfl
      (by decide) (by decide),
    (claim_C3 LLMProvider.Ollama (List.replicate 40 'a') 10).2.2.1 rfl
      (by decide)⟩

/-- C9: the multi-level chunk size is the `usize` subtraction
`token_threshold - 300`, well-defined (no underflow) exactly when
`token_threshold ≥ 300`; for every call with an Ollama provider,
`token_threshold < 300` and a transcript estimated at `token_threshold`
tokens or more, the multi-level branch is taken and the subtraction
underflows. -/
theorem claim_C9 (provider : LLMProvider) (text : List Char)
    (token_threshold : Nat) :
    (300 ≤ token_threshold →
        checkedSub token_threshold 300 = some (token_threshold - 300)) ∧
      (provider = LLMProvider.Ollama → token_threshold < 300 →
        token_threshold ≤ rough_token_count text →
        usesSinglePass provider text token_threshold = false ∧
          checkedSub token_threshold 300 = none) := by
  constructor
  · intro h
    rw [checkedSub, if_pos h]
  · intro hp hlt hge
    constructor
    · rw [usesSinglePass, hp]
      simp only [bne_self_eq_false, Bool.false_or, decide_eq_false_iff_not]
      omega
    · rw [checkedSub, if_neg (by omega)]

set_option maxRecDepth 4000 in
/-- C9 witness: with threshold 100 and a 400-character transcript (100
estimated tokens) an Ollama run takes the multi-level branch and the
subtraction `100 - 300` underflows; with threshold 300 it is
well-defined. -/
theorem claim_C9_witness :
    (300 ≤ 300 ∧ LLMProvider.Ollama = LLMProvider.Ollama ∧ (100 : Nat) < 300 ∧
        100 ≤ rough_token_count (List.replicate 400 'a')) ∧
      checkedSub 300 300 = some 0 ∧
      usesSinglePass LLMProvider.Ollama (List.replicate 400 'a') 100 = false ∧
      checkedSub 100 300 = none :=
  ⟨⟨by decide, rfl, by decide, by decide⟩,
    (claim_C9 LLMProvider.Ollama (List.replicate 400 'a') 300).1 (by decide),
    ((claim_C9 LLMProvider.Ollama (List.replicate 400 'a') 100).2 rfl
      (by decide) (by decide)).1,
    ((claim_C9 LLMProvider.Ollama (List.replicate 400 'a') 100).2 rfl
      (by decide) (by decide)).2⟩

/-! Helper lemmas about the multi-level pipeline. -/

theorem gms_multi (co : Collaborators) (provider : LLMProvider)
    (text custom_prompt template_id : List Char) (token_threshold : Nat)
    (h : usesSinglePass provider text token_threshold = false) :
    generate_meeting_summary co provider text custom_prompt template_id
        token_threshold =
      if (chunkStage co (chunk_text text (token_threshold - 300) 100)).isEmpty
      then Except.error noChunksError
      else
        match
          combineStage co (chunk_text text (token_threshold - 300) 100).length
            (chunkStage co (chunk_text text (token_threshold - 300) 100)) with
        | Except.error e => Except.error e
        | Except.ok content =>
          finishStage co content
            ((chunkStage co (chunk_text text (token_threshold - 300) 100)).length :
              Int)
            custom_prompt template_id
            ((chunk_text text (token_threshold - 300) 100).length +
              if 1 <
                  (chunkStage co
                    (chunk_text text (token_threshold - 300) 100)).length
              then 1 else 0) := by
  rw [generate_meeting_summary, if_neg (by rw [h]; exact Bool.false_ne_true)]

theorem finishStage_cnt (co : Collaborators) (content : List Char) (cnt : Int)
    (custom_prompt template_id : List Char) (callIdx : Nat) (md : List Char)
    (cnt2 : Int)
    (h : finishStage co content cnt custom_prompt template_id callIdx =
      Except.ok (md, cnt2)) :
    cnt2 = cnt := by
  rw [finishStage] at h
  split at h
  · exact Except.noConfusion h
  · split at h
    · exact Except.noConfusion h
    · simp only [Except.ok.injEq, Prod.mk.injEq] at h
      exact h.2.symm

theorem finishStage_ok (co : Collaborators) (content : List Char) (cnt : Int)
    (custom_prompt template_id : List Char) (callIdx : Nat) (tpl : Template)
    (htpl : co.getTemplate template_id = Except.ok tpl)
    (hllm : ∀ sys user, ∃ r, co.llm callIdx sys user = Except.ok r) :
    ∃ md, finishStage co content cnt custom_prompt template_id callIdx =
      Except.ok (md, cnt) := by
  rw [finishStage]
  split
  · rename_i e heq
    rw [htpl] at heq
    exact Except.noConfusion heq
  · rename_i t heq
    rw [htpl] at heq
    injection heq with heq
    subst heq
    obtain ⟨r, hr⟩ := hllm (finalSystemPrompt co tpl)
      (finalUserPrompt content custom_prompt)
    rw [hr]
    exact ⟨clean_llm_markdown_output r, rfl⟩

/-- C4: in a multi-level run (Ollama provider, estimated tokens at or above
the threshold): (1) if every per-chunk LLM call fails, the function returns
the fatal "no chunks processed successfully" error; (2) any successful
overall result carries a chunk count equal to the number of chunks whose
call succeeded (the in-order survivors collected by `chunkStage`); (3) if
at least one chunk call succeeds, then — the remaining collaborator calls
succeeding — the run is not an error and returns that count. -/
theorem claim_C4 (co : Collaborators)
    (text custom_prompt template_id : List Char) (token_threshold : Nat)
    (htok : token_threshold ≤ rough_token_count text) :
    ((∀ p ∈ (chunk_text text (token_threshold - 300) 100).enum,
        (co.llm p.1 co.chunkSystemPrompt (chunkUserPrompt co p.2)).toOption =
          none) →
      generate_meeting_summary co LLMProvider.Ollama text custom_prompt
          template_id token_threshold = Except.error noChunksError) ∧
    (∀ md cnt,
      generate_meeting_summary co LLMProvider.Ollama text custom_prompt
          template_id token_threshold = Except.ok (md, cnt) →
      cnt =
        ((chunkStage co (chunk_text text (token_threshold - 300) 100)).length :
          Int)) ∧
    (chunkStage co (chunk_text text (token_threshold - 300) 100) ≠ [] →
      (∀ i sys user, (chunk_text text (token_threshold - 300) 100).length ≤ i →
        ∃ r, co.llm i sys user = Except.ok r) →
      (∃ tpl, co.getTemplate template_id = Except.ok tpl) →
      ∃ md,
        generate_meeting_summary co LLMProvider.Ollama text custom_prompt
            template_id token_threshold =
          Except.ok (md,
            ((chunkStage co
              (chunk_text text (token_threshold - 300) 100)).length : Int))) := by
  have hsp : usesSinglePass LLMProvider.Ollama text token_threshold = false := by
    rw [usesSinglePass]
    simp only [bne_self_eq_false, Bool.false_or, decide_eq_false_iff_not]
    omega
  have hm := gms_multi co LLMProvider.Ollama text custom_prompt template_id
    token_threshold hsp
  refine ⟨?_, ?_, ?_⟩
  · intro hall
    have hempty :
        chunkStage co (chunk_text text (token_threshold - 300) 100) = [] := by
      rw [chunkStage]
      exact List.filterMap_eq_nil_iff.mpr hall
    rw [hm, hempty]
    rfl
  · intro md cnt h
    rw [hm] at h
    by_cases he :
        (chunkStage co (chunk_text text (token_threshold - 300) 100)).isEmpty =
          true
    · rw [if_pos he] at h
      exact Except.noConfusion h
    · rw [if_neg he] at h
      split at h
      · exact Except.noConfusion h
      · exact finishStage_cnt _ _ _ _ _ _ _ _ h
  · intro hne hrest htpl
    obtain ⟨tpl, htpl⟩ := htpl
    rw [hm]
    have hie :
        ¬ ((chunkStage co
            (chunk_text text (token_threshold - 300) 100)).isEmpty = true) := by
      simpa [List.isEmpty_iff] using hne
    rw [if_neg hie]
    by_cases hlen :
        1 < (chunkStage co (chunk_text text (token_threshold - 300) 100)).length
    · have hcomb := hrest (chunk_text text (token_threshold - 300) 100).length
        co.combineSystemPrompt
        (replaceAll co.combineUserTemplate (strL "{}")
          (List.intercalate (strL "\n---\n")
            (chunkStage co (chunk_text text (token_threshold - 300) 100))))
        (Nat.le_refl _)
      obtain ⟨r, hr⟩ := hcomb
      have hcs : combineStage co
          (chunk_text text (token_threshold - 300) 100).length
          (chunkStage co (chunk_text text (token_threshold - 300) 100)) =
          Except.ok r := by
        rw [combineStage, if_pos hlen]
        exact hr
      rw [hcs]
      exact finishStage_ok co r _ custom_prompt template_id _ tpl htpl
        (fun sys user => hrest _ sys user (by omega))
    · have hcs : combineStage co
          (chunk_text text (token_threshold - 300) 100).length
          (chunkStage co (chunk_text text (token_threshold - 300) 100)) =
          Except.ok
            ((chunkStage co
              (chunk_text text (token_threshold - 300) 100)).headD []) := by
        rw [combineStage, if_neg hlen]
      rw [hcs]
      exact finishStage_ok co _ _ custom_prompt template_id _ tpl htpl
        (fun sys user => hrest _ sys user (by omega))

/-- Builder for the concrete transcripts of the multi-level witnesses: `n`
repetitions of the four characters `"abc "`. -/
def abcPattern : Nat → List Char
  | 0 => []
  | n + 1 => 'a' :: 'b' :: 'c' :: ' ' :: abcPattern n

/-- Concrete 1800-character transcript (450 estimated tokens) used by the
multi-level witnesses: with threshold 450 the chunk size is 150 tokens (600
characters) and overlap 100 tokens (400 characters), yielding seven
chunks. -/
def bigText : List Char := abcPattern 450

/-- Trivial resolved template for the witnesses. -/
def demoTemplate : Template := ⟨strL "MD", strL "SI"⟩

/-- Witness collaborator whose second chunk call (index 1) fails and every
other call succeeds. -/
def c4co : Collaborators :=
  ⟨fun i _ _ =>
      if i == 1 then Except.error (strL "boom") else Except.ok (strL "S"),
    fun _ => Except.ok demoTemplate,
    strL "cs", strL "{}", strL "cbs", strL "{}", strL "{} {}"⟩

/-- Witness collaborator whose every LLM call fails. -/
def c4coAll : Collaborators :=
  ⟨fun _ _ _ => Except.error (strL "x"),
    fun _ => Except.ok demoTemplate,
    strL "cs", strL "{}", strL "cbs", strL "{}", strL "{} {}"⟩

set_option maxRecDepth 100000 in
/-- C4 witness: on the seven-chunk transcript `bigText` with threshold 450,
the all-fail collaborator produces the fatal "no chunks" error, while the
collaborator failing only chunk 1 yields a successful run whose chunk count
is 6 (the six surviving chunks). -/
theorem claim_C4_witness :
    (450 ≤ rough_token_count bigText ∧
        chunkStage c4co (chunk_text bigText (450 - 300) 100) ≠ [] ∧
        (chunkStage c4co (chunk_text bigText (450 - 300) 100)).length = 6) ∧
      generate_meeting_summary c4coAll LLMProvider.Ollama bigText (strL "")
          (strL "t") 450 = Except.error noChunksError ∧
      ∃ md,
        generate_meeting_summary c4co LLMProvider.Ollama bigText (strL "")
            (strL "t") 450 =
          Except.ok (md,
            ((chunkStage c4co (chunk_text bigText (450 - 300) 100)).length :
              Int)) := by
  refine ⟨⟨by decide, by decide, by decide⟩, ?_, ?_⟩
  · exact (claim_C4 c4coAll bigText (strL "") (strL "t") 450 (by decide)).1
      (by decide)
  · refine (claim_C4 c4co bigText (strL "") (strL "t") 450 (by decide)).2.2
      (by decide) ?_ ⟨demoTemplate, rfl⟩
    intro i sys user hge
    have h7 : 7 ≤ i := by
      rwa [show (chunk_text bigText (450 - 300) 100).length = 7 from by decide]
        at hge
    refine ⟨strL "S", ?_⟩
    show (if i == 1 then Except.error (strL "boom")
      else Except.ok (strL "S")) = Except.ok (strL "S")
    rw [if_neg]
    simp only [beq_iff_eq]
    omega

deriving instance DecidableEq for Except

/-- C6: in a multi-level run, a single surviving summary is returned
unchanged by the combination step, which consults no LLM oracle (for every
collaborator the result is `ok s`), and the whole run reduces to the final
stage applied to that summary with chunk count 1 and no combine call
consumed; with two or more summaries one combining LLM call is made, on the
summaries joined in original order with the separator `"\n---\n"`; and
failure of that call is fatal for the whole run. -/
theorem claim_C6 (co : Collaborators)
    (text custom_prompt template_id : List Char) (token_threshold : Nat)
    (htok : token_threshold ≤ rough_token_count text) :
    (∀ (co2 : Collaborators) (idx : Nat) (s : List Char),
        combineStage co2 idx [s] = Except.ok s) ∧
      (∀ (summaries : List (List Char)) (idx : Nat), 1 < summaries.length →
        combineStage co idx summaries =
          co.llm idx co.combineSystemPrompt
            (replaceAll co.combineUserTemplate (strL "{}")
              (List.intercalate (strL "\n---\n") summaries))) ∧
      (∀ s, chunkStage co (chunk_text text (token_threshold - 300) 100) = [s] →
        generate_meeting_summary co LLMProvider.Ollama text custom_prompt
            template_id token_threshold =
          finishStage co s 1 custom_prompt template_id
            (chunk_text text (token_threshold - 300) 100).length) ∧
      (∀ e,
        combineStage co (chunk_text text (token_threshold - 300) 100).length
            (chunkStage co (chunk_text text (token_threshold - 300) 100)) =
          Except.error e →
        chunkStage co (chunk_text text (token_threshold - 300) 100) ≠ [] →
        generate_meeting_summary co LLMProvider.Ollama text custom_prompt
            template_id token_threshold = Except.error e) := by
  have hsp : usesSinglePass LLMProvider.Ollama text token_threshold = false := by
    rw [usesSinglePass]
    simp only [bne_self_eq_false, Bool.false_or, decide_eq_false_iff_not]
    omega
  have hm := gms_multi co LLMProvider.Ollama text custom_prompt template_id
    token_threshold hsp
  refine ⟨?_, ?_, ?_, ?_⟩
  · intro co2 idx s
    rw [combineStage, if_neg (by simp)]
    rfl
  · intro summaries idx hlen
    rw [combineStage, if_pos hlen]
  · intro s heq
    rw [hm, heq]
    have hone : combineStage co
        (chunk_text text (token_threshold - 300) 100).length [s] =
        Except.ok s := by
      rw [combineStage, if_neg (by simp)]
      rfl
    rw [hone]
    simp
  · intro e hcomb hne
    rw [hm]
    rw [if_neg (by simpa [List.isEmpty_iff] using hne)]
    rw [hcomb]

/-- Witness collaborator for C6 whose only successful chunk call is the
first (index 0); the other six chunk calls fail. -/
def c6one : Collaborators :=
  ⟨fun i _ _ =>
      if i == 0 then Except.ok (strL "S0") else Except.error (strL "e"),
    fun _ => Except.ok demoTemplate,
    strL "cs", strL "{}", strL "cbs", strL "{}", strL "{} {}"⟩

/-- Witness collaborator for C6 whose chunk calls all succeed and whose
combining call (index 7) fails. -/
def c6fail : Collaborators :=
  ⟨fun i _ _ =>
      if i == 7 then Except.error (strL "cfail") else Except.ok (strL "S"),
    fun _ => Except.ok demoTemplate,
    strL "cs", strL "{}", strL "cbs", strL "{}", strL "{} {}"⟩

set_option maxRecDepth 100000 in
/-- C6 witness: on the seven-chunk transcript `bigText` with threshold 450,
the single-survivor collaborator reduces the run to the final stage on
`"S0"` with count 1 and no combine call; the two-summary combination equals
one LLM call on the joined summaries; and the all-succeed collaborator with
a failing combine call makes the whole run fail with that error. -/
theorem claim_C6_witness :
    (450 ≤ rough_token_count bigText ∧
        chunkStage c6one (chunk_text bigText (450 - 300) 100) = [strL "S0"] ∧
        combineStage c6fail (chunk_text bigText (450 - 300) 100).length
            (chunkStage c6fail (chunk_text bigText (450 - 300) 100)) =
          Except.error (strL "cfail") ∧
        chunkStage c6fail (chunk_text bigText (450 - 300) 100) ≠ []) ∧
      combineStage c6one 99 [strL "x"] = Except.ok (strL "x") ∧
      combineStage c6fail 9 [strL "A", strL "B"] =
        c6fail.llm 9 c6fail.combineSystemPrompt
          (replaceAll c6fail.combineUserTemplate (strL "{}")
            (List.intercalate (strL "\n---\n") [strL "A", strL "B"])) ∧
      generate_meeting_summary c6one LLMProvider.Ollama bigText (strL "")
          (strL "t") 450 =
        finishStage c6one (strL "S0") 1 (strL "") (strL "t")
          (chunk_text bigText (450 - 300) 100).length ∧
      generate_meeting_summary c6fail LLMProvider.Ollama bigText (strL "")
          (strL "t") 450 = Except.error (strL "cfail") := by
  refine ⟨⟨by decide, by decide, by decide, by decide⟩, ?_, ?_, ?_, ?_⟩
  · exact (claim_C6 c6one bigText (strL "") (strL "t") 450 (by decide)).1
      c6one 99 (strL "x")
  · exact (claim_C6 c6fail bigText (strL "") (strL "t") 450 (by decide)).2.1
      [strL "A", strL "B"] 9 (by decide)
  · exact (claim_C6 c6one bigText (strL "") (strL "t") 450 (by decide)).2.2.1
      (strL "S0") (by decide)
  · exact (claim_C6 c6fail bigText (strL "") (strL "t") 450 (by decide)).2.2.2
      (strL "cfail") (by decide) (by decide)

end MeetingMinutes
